import Mathlib

/-!
Shallow embedding of the aflpp-filter repository:
  * `src/frida_mode/src/cmplog/cmplog_x64.c`  — the x86-64 comparison-operand
    capture engine (memory probe, operand evaluator, comparison-map update,
    instrumentation selector);
  * `src/custom_mutators/libfuzzer/FuzzerDataFlowTrace.h` — the data-flow
    trace model (block coverage aggregation helpers and trace lookup).

Machine integers are modelled as `Nat`/`Int` with explicit `% 2 ^ 64` where
the C code performs wrapping `gsize` arithmetic.  Fallible C functions
returning `gboolean` with an out-parameter are modelled as `Option`.
Definitions follow the source; a few constants and one function body live in
headers that are not part of the repository snapshot and are modelled from
the specification, as noted in their doc comments.
-/

namespace AflppFilter

/-! ### Constants -/

/-- Capstone's invalid-register marker `X86_REG_INVALID` (value 0). -/
def X86_REG_INVALID : Nat := 0

/-- Register identifier for `X86_REG_RIP` (any fixed nonzero id). -/
def X86_REG_RIP : Nat := 41

/-- Register identifier for `X86_REG_RDI` (any fixed nonzero id). -/
def X86_REG_RDI : Nat := 39

/-- Register identifier for `X86_REG_RSI` (any fixed nonzero id). -/
def X86_REG_RSI : Nat := 43

/-- Glib's `G_MAXULONG` on x86-64: the largest `gsize` value. -/
def G_MAXULONG : Nat := 2 ^ 64 - 1

/-- Modelled from the spec: ring capacity of an `INS` map entry
(`CMP_MAP_H` from the shared `cmplog.h` header, which is not under `src/`);
the spec requires a fixed power-of-two constant. -/
def CMP_MAP_H : Nat := 32

/-- Modelled from the spec: ring capacity of an `RTN` map entry
(`CMP_MAP_RTN_H` from the shared `cmplog.h` header, which is not under
`src/`); the spec requires a fixed power-of-two constant. -/
def CMP_MAP_RTN_H : Nat := 8

/-! ### Comparison Map data model (§3 of the spec, `cmplog.h` layout) -/

/-- Classification of a Comparison Map entry: `NONE` (untouched),
`INS` (comparison/subtraction operands), `RTN` (call-site snapshots). -/
inductive CmpType where
  | NONE
  | INS
  | RTN
deriving DecidableEq, Repr

/-- Per-key header of the Comparison Map: classification, operand shape
(byte-width minus one, or 30 for `RTN`), and the hit counter. -/
structure CmpHeader where
  type : CmpType
  shape : Nat
  hits : Nat
deriving DecidableEq, Repr

/-- One ring slot of the Comparison Map log.  The C log region is raw
memory reinterpreted according to the entry's type; a write of either
record kind overwrites whatever was there.  `ins` carries the two operand
values (`cmp_operands`), `rtn` carries two explicit lengths and two 31-byte
snapshots (`cmpfn_operands`). -/
inductive LogEntry where
  | empty
  | ins (v0 v1 : Nat)
  | rtn (v0_len v1_len : Nat) (v0 v1 : List Nat)
deriving DecidableEq, Repr

/-- The shared Comparison Map region `__afl_cmp_map`: per-key headers and
per-key rings of log slots. -/
structure CmpMap where
  headers : Nat → CmpHeader
  log : Nat → Nat → LogEntry

/-- The all-zero map: every header is `NONE` with zero shape and hits and
every ring slot is empty. -/
def CmpMap.init : CmpMap :=
  { headers := fun _ => ⟨CmpType.NONE, 0, 0⟩, log := fun _ _ => LogEntry.empty }

/-- Replace the header stored at key `k`. -/
def CmpMap.setHeader (m : CmpMap) (k : Nat) (h : CmpHeader) : CmpMap :=
  { m with headers := fun k2 => if k2 = k then h else m.headers k2 }

/-- Replace the log slot stored at key `k`, ring index `i`. -/
def CmpMap.setLog (m : CmpMap) (k i : Nat) (e : LogEntry) : CmpMap :=
  { m with log := fun k2 i2 => if k2 = k ∧ i2 = i then e else m.log k2 i2 }

/-! ### Target memory model (§4.1 Memory Probe) -/

/-- The instrumented target's memory, as seen by the capture engine:
`readable a n` is the OS-level query `cmplog_is_readable(a, n)` and
`byte a` is the byte stored at address `a` (taken mod 256 at every use). -/
structure Mem where
  readable : Nat → Nat → Bool
  byte : Nat → Nat

/-- Little-endian value of `size` bytes of memory starting at `addr`,
as produced by the C casts `*(guintN *)addr` on x86-64. -/
def readLE (mem : Mem) (addr size : Nat) : Nat :=
  (List.range size).foldr (fun i acc => mem.byte (addr + i) % 256 + 256 * acc) 0

/-- Wrap an integer into an unsigned 64-bit `gsize` value. -/
def toGsize (i : Int) : Nat := (i % (2 ^ 64 : Int)).toNat

/-- The OS-level readability query `cmplog_is_readable(address, size)`
(implemented outside this file via memory-map lookups). -/
def cmplog_is_readable (mem : Mem) (address size : Nat) : Bool :=
  mem.readable address size

/-! ### Operand descriptors (§4.2 Operand Evaluator) -/

/-- Capstone operand kind `x86_op_type`. -/
inductive X86OpType where
  | INVALID
  | REG
  | IMM
  | MEM
deriving DecidableEq, Repr

/-- Capstone memory-operand descriptor `x86_op_mem`: segment/base/index
register ids, scale factor and displacement. -/
structure X86OpMem where
  segment : Nat
  base : Nat
  index : Nat
  scale : Int
  disp : Int
deriving DecidableEq, Repr

/-- Capstone decoded operand `cs_x86_op` (the union flattened into fields;
only the field selected by `type` is ever read). -/
structure CsX86Op where
  type : X86OpType
  size : Nat
  reg : Nat
  imm : Int
  mem : X86OpMem
deriving DecidableEq, Repr

instance : Inhabited CsX86Op :=
  ⟨⟨X86OpType.INVALID, 0, 0, 0, ⟨0, 0, 0, 1, 0⟩⟩⟩

/-- The callout context `cmplog_ctx_t`: a by-value copy of one decoded
operand (type, size, and the union member selected by the type). -/
structure cmplog_ctx_t where
  type : X86OpType
  size : Nat
  reg : Nat
  imm : Int
  mem : X86OpMem
deriving DecidableEq, Repr

/-- Zero-initialised `cmplog_ctx_t` (the fields `cmplog_instrument_put_operand`
does not copy keep this value). -/
def cmplog_ctx_zero : cmplog_ctx_t :=
  ⟨X86OpType.INVALID, 0, 0, 0, ⟨0, 0, 0, 1, 0⟩⟩

/-- The callout context `cmplog_pair_ctx_t`: both operands of one
comparison/subtraction instruction. -/
structure cmplog_pair_ctx_t where
  operand1 : cmplog_ctx_t
  operand2 : cmplog_ctx_t
deriving DecidableEq, Repr

/-- The effective address of a memory operand:
`base + index * scale + disp` in wrapping 64-bit arithmetic, where the
base and index terms are zero when the corresponding register sub-field is
`X86_REG_INVALID`. -/
def memAddress (ctxr : Nat → Nat) (mo : X86OpMem) : Nat :=
  toGsize
    (((if mo.base ≠ X86_REG_INVALID then ctxr mo.base else 0 : Nat) : Int) +
      ((if mo.index ≠ X86_REG_INVALID then ctxr mo.index else 0 : Nat) : Int)
        * mo.scale + mo.disp)

/-- `cmplog_read_mem`: resolve a memory operand against the live register
state `ctxr` (the `GumCpuContext`), computing
`address = base + index * scale + disp` with absent sub-fields contributing
zero, then probe readability and read `size` bytes little-endian.
`none` models both the unreadable case (returns `FALSE`) and the
`FFATAL` on an operand size other than 1/2/4/8 (the process dies, so no
value is produced either way). -/
def cmplog_read_mem (mem : Mem) (ctxr : Nat → Nat) (size : Nat)
    (mo : X86OpMem) : Option Nat :=
  let address : Nat := memAddress ctxr mo
  if cmplog_is_readable mem address size then
    match size with
    | 1 => some (readLE mem address 1)
    | 2 => some (readLE mem address 2)
    | 4 => some (readLE mem address 4)
    | 8 => some (readLE mem address 8)
    | _ => none
  else none

/-- `cmplog_get_operand_value`: evaluate one operand descriptor against the
live CPU state.  Registers and immediates always succeed; memory operands
delegate to `cmplog_read_mem`.  The `INVALID` case is the source's
`FFATAL` (process abort, no value), modelled as `none`. -/
def cmplog_get_operand_value (mem : Mem) (ctxr : Nat → Nat)
    (ctx : cmplog_ctx_t) : Option Nat :=
  match ctx.type with
  | X86OpType.REG => some (ctxr ctx.reg)
  | X86OpType.IMM => some (toGsize ctx.imm)
  | X86OpType.MEM => cmplog_read_mem mem ctxr ctx.size ctx.mem
  | X86OpType.INVALID => none

/-! ### Comparison Map update (§4.3) -/

/-- The 31-byte snapshot `gum_memcpy(dst, ptr, 31)` takes of target memory. -/
def snapshot31 (mem : Mem) (p : Nat) : List Nat :=
  (List.range 31).map fun i => mem.byte (p + i) % 256

/-- `cmplog_handle_cmp_sub`: update the `INS` entry at the key hashed from
the current instruction address.  A stored type other than `INS` resets the
hit counter; a zero hit counter (re-)classifies the entry (`type := INS`,
`shape := size - 1`); the operand pair is written at ring index
`hits & (CMP_MAP_H - 1)` and the counter is incremented. -/
def cmplog_handle_cmp_sub (hash : Nat → Nat) (ctxr : Nat → Nat) (m : CmpMap)
    (operand1 operand2 : Nat) (size : Nat) : CmpMap :=
  let address := ctxr X86_REG_RIP
  let k := hash address
  let h0 := m.headers k
  let h1 := if h0.type ≠ CmpType.INS then { h0 with hits := 0 } else h0
  let hits : Nat := if h1.hits = 0 then 0 else h1.hits
  let h2 := if h1.hits = 0 then { h1 with type := CmpType.INS, shape := size - 1 } else h1
  let h3 := { h2 with hits := hits + 1 }
  let idx := hits &&& (CMP_MAP_H - 1)
  (m.setHeader k h3).setLog k idx (LogEntry.ins operand1 operand2)

/-- `cmplog_cmp_sub_callout`: evaluate both captured operands; if either
fails, return with the map untouched, otherwise hand over to
`cmplog_handle_cmp_sub` with the first operand's size. -/
def cmplog_cmp_sub_callout (hash : Nat → Nat) (mem : Mem) (ctxr : Nat → Nat)
    (ctx : cmplog_pair_ctx_t) (m : CmpMap) : CmpMap :=
  match cmplog_get_operand_value mem ctxr ctx.operand1 with
  | none => m
  | some operand1 =>
    match cmplog_get_operand_value mem ctxr ctx.operand2 with
    | none => m
    | some operand2 =>
      cmplog_handle_cmp_sub hash ctxr m operand1 operand2 ctx.operand1.size

/-- `cmplog_call_callout`: read `RDI`/`RSI` as pointers; bail out if either
is within 31 bytes of the top of the address space or points to fewer than
31 readable bytes; otherwise update the `RTN` entry at the key hashed from
the call-site address, snapshotting 31 bytes from each pointer, with ring
index `hits & (CMP_MAP_RTN_H - 1)`. -/
def cmplog_call_callout (hash : Nat → Nat) (mem : Mem) (ctxr : Nat → Nat)
    (m : CmpMap) : CmpMap :=
  let address := ctxr X86_REG_RIP
  let rdi := ctxr X86_REG_RDI
  let rsi := ctxr X86_REG_RSI
  if G_MAXULONG - rdi < 31 ∨ G_MAXULONG - rsi < 31 then m
  else if ¬ cmplog_is_readable mem rdi 31 ∨ ¬ cmplog_is_readable mem rsi 31 then m
  else
    let k := hash address
    let h0 := m.headers k
    let h1 := if h0.type ≠ CmpType.RTN then { h0 with type := CmpType.RTN, hits := 0 } else h0
    let hits : Nat := if h1.hits = 0 then 0 else h1.hits
    let h2 := if h1.hits = 0 then { h1 with shape := 30 } else h1
    let h3 := { h2 with hits := hits + 1 }
    let idx := hits &&& (CMP_MAP_RTN_H - 1)
    (m.setHeader k h3).setLog k idx
      (LogEntry.rtn 31 31 (snapshot31 mem rdi) (snapshot31 mem rsi))

/-! ### Instrumentation Selector (§4.4) -/

/-- The instruction identifiers the selector inspects (`X86_INS_*`);
`other` stands for every identifier outside the intercepted family. -/
inductive X86InsId where
  | CALL
  | CMP
  | SUB
  | SCASB
  | SCASD
  | SCASQ
  | SCASW
  | CMPSB
  | CMPSD
  | CMPSQ
  | CMPSS
  | CMPSW
  | other
deriving DecidableEq, Repr

/-- A decoded instruction `cs_insn` restricted to the fields the selector
reads: identifier, operand count and operand array. -/
structure CsInsn where
  id : X86InsId
  op_count : Nat
  operands : List CsX86Op
deriving DecidableEq, Repr

/-- `cmplog_instrument_put_operand`: copy one decoded operand by value into
a callout context: type, size, and the union member selected by the type.
The `INVALID` case is the source's `FFATAL`; the selector never calls the
function with it. -/
def cmplog_instrument_put_operand (operand : CsX86Op) : cmplog_ctx_t :=
  let ctx := { cmplog_ctx_zero with type := operand.type, size := operand.size }
  match operand.type with
  | X86OpType.REG => { ctx with reg := operand.reg }
  | X86OpType.IMM => { ctx with imm := operand.imm }
  | X86OpType.MEM => { ctx with mem := operand.mem }
  | X86OpType.INVALID => ctx

/-- `cmplog_instrument_call`: decide whether a call callout is attached:
the instruction must be a `CALL` with exactly one operand that is not
invalid and not segment-relative memory. -/
def cmplog_instrument_call (instr : CsInsn) : Bool :=
  if instr.id ≠ X86InsId.CALL then false
  else if instr.op_count ≠ 1 then false
  else
    let operand := instr.operands.getD 0 default
    if operand.type = X86OpType.INVALID then false
    else if operand.type = X86OpType.MEM ∧ operand.mem.segment ≠ X86_REG_INVALID then false
    else true

/-- Membership in the compare/subtract instruction family of the
`switch` in `cmplog_instrument_cmp_sub`. -/
def cmplog_is_cmp_sub_id (id : X86InsId) : Bool :=
  match id with
  | X86InsId.CMP => true
  | X86InsId.SUB => true
  | X86InsId.SCASB => true
  | X86InsId.SCASD => true
  | X86InsId.SCASQ => true
  | X86InsId.SCASW => true
  | X86InsId.CMPSB => true
  | X86InsId.CMPSD => true
  | X86InsId.CMPSQ => true
  | X86InsId.CMPSS => true
  | X86InsId.CMPSW => true
  | _ => false

/-- `cmplog_instrument_cmp_sub` (with `cmplog_instrument_cmp_sub_put_callout`
inlined): decide whether a comparison callout is attached and with which
by-value context.  Requires a family instruction with exactly two decodable
operands, neither invalid, and operand width greater than one byte. -/
def cmplog_instrument_cmp_sub (instr : CsInsn) : Option cmplog_pair_ctx_t :=
  if ¬ cmplog_is_cmp_sub_id instr.id then none
  else if instr.op_count ≠ 2 then none
  else
    let operand1 := instr.operands.getD 0 default
    let operand2 := instr.operands.getD 1 default
    if operand1.type = X86OpType.INVALID then none
    else if operand2.type = X86OpType.INVALID then none
    else if operand1.size = 1 then none
    else some ⟨cmplog_instrument_put_operand operand1,
               cmplog_instrument_put_operand operand2⟩

/-- The instrumentation decision for one instruction: whether a call
callout is attached and whether (and with which context) a
comparison/subtraction callout is attached. -/
structure InstrumentResult where
  callAttached : Bool
  cmpSubCtx : Option cmplog_pair_ctx_t
deriving DecidableEq, Repr

/-- `cmplog_instrument`: entry point of the selector.  When the shared map
region `__afl_cmp_map` is `NULL`, return immediately with nothing attached;
otherwise run both sub-selectors. -/
def cmplog_instrument (afl_cmp_map : Option CmpMap) (instr : CsInsn) :
    InstrumentResult :=
  match afl_cmp_map with
  | none => ⟨false, none⟩
  | some _ => ⟨cmplog_instrument_call instr, cmplog_instrument_cmp_sub instr⟩

/-! ### Dynamic-execution model: callouts and sessions -/

/-- A callout attached by the selector: either the call-site callout or a
comparison callout carrying its operand-pair context. -/
inductive Callout where
  | call
  | cmpSub (ctx : cmplog_pair_ctx_t)
deriving DecidableEq, Repr

/-- The callouts `cmplog_instrument` attaches for one instruction. -/
def calloutsOf (afl_cmp_map : Option CmpMap) (instr : CsInsn) : List Callout :=
  let r := cmplog_instrument afl_cmp_map instr
  (if r.callAttached then [Callout.call] else []) ++
    (match r.cmpSubCtx with
     | some c => [Callout.cmpSub c]
     | none => [])

/-- One dynamic execution of an attached callout: the callout together with
the target memory and register state live at that moment. -/
def runCallout (hash : Nat → Nat) (e : Callout × Mem × (Nat → Nat))
    (m : CmpMap) : CmpMap :=
  match e.1 with
  | Callout.call => cmplog_call_callout hash e.2.1 e.2.2 m
  | Callout.cmpSub ctx => cmplog_cmp_sub_callout hash e.2.1 e.2.2 ctx m

/-- A session: the sequence of dynamic callout executions applied to the
shared map in order. -/
def runSession (hash : Nat → Nat) (evs : List (Callout × Mem × (Nat → Nat)))
    (m : CmpMap) : CmpMap :=
  evs.foldl (fun m2 e => runCallout hash e m2) m

/-- One successful comparison/subtraction capture event: the register state
at the instruction and the two evaluated operand values and their width. -/
structure CmpSubEvent where
  ctxr : Nat → Nat
  v0 : Nat
  v1 : Nat
  size : Nat

/-- Apply one capture event through `cmplog_handle_cmp_sub`. -/
def applyCmpSub (hash : Nat → Nat) (m : CmpMap) (e : CmpSubEvent) : CmpMap :=
  cmplog_handle_cmp_sub hash e.ctxr m e.v0 e.v1 e.size

/-- Apply a sequence of capture events in order. -/
def applyCmpSubs (hash : Nat → Nat) (m : CmpMap) (es : List CmpSubEvent) :
    CmpMap :=
  es.foldl (applyCmpSub hash) m

/-- One dynamic execution of the call callout: the register state and the
target memory live at the call site. -/
structure CallEvent where
  ctxr : Nat → Nat
  mem : Mem

/-- Apply one call-site capture event through `cmplog_call_callout`. -/
def applyCall (hash : Nat → Nat) (m : CmpMap) (e : CallEvent) : CmpMap :=
  cmplog_call_callout hash e.mem e.ctxr m

/-- Apply a sequence of call-site capture events in order. -/
def applyCalls (hash : Nat → Nat) (m : CmpMap) (es : List CallEvent) :
    CmpMap :=
  es.foldl (applyCall hash) m

/-- The `RTN` record a call-site capture event writes: both lengths 31 and
the 31-byte snapshots from the two pointer registers. -/
def callRecord (e : CallEvent) : LogEntry :=
  LogEntry.rtn 31 31 (snapshot31 e.mem (e.ctxr X86_REG_RDI))
    (snapshot31 e.mem (e.ctxr X86_REG_RSI))

/-- A call-site event that actually captures at key `k`: the call-site
address hashes to `k`, both pointer registers pass the address-space wrap
guard, and both point to 31 readable bytes. -/
def callCaptureOk (hash : Nat → Nat) (k : Nat) (e : CallEvent) : Prop :=
  hash (e.ctxr X86_REG_RIP) = k ∧
  31 ≤ G_MAXULONG - e.ctxr X86_REG_RDI ∧
  31 ≤ G_MAXULONG - e.ctxr X86_REG_RSI ∧
  cmplog_is_readable e.mem (e.ctxr X86_REG_RDI) 31 = true ∧
  cmplog_is_readable e.mem (e.ctxr X86_REG_RSI) 31 = true

/-! ### Block Coverage Aggregator (§4.5, `FuzzerDataFlowTrace.h`) -/

/-- `BlockCoverage::NumberOfCoveredBlocks`: the number of nonzero counters
in one function's coverage vector. -/
def NumberOfCoveredBlocks (Counters : List Nat) : Nat :=
  Counters.foldl (fun Res Cnt => if Cnt ≠ 0 then Res + 1 else Res) 0

/-- `BlockCoverage::NumberOfUncoveredBlocks`: total blocks minus covered
blocks. -/
def NumberOfUncoveredBlocks (Counters : List Nat) : Nat :=
  Counters.length - NumberOfCoveredBlocks Counters

/-- `BlockCoverage::SmallestNonZeroCounter`: start from the first counter
and fold `Min` over every nonzero counter (the source asserts the vector
nonempty; an empty vector yields the start value 0 here). -/
def SmallestNonZeroCounter (Counters : List Nat) : Nat :=
  Counters.foldl (fun Res Cnt => if Cnt ≠ 0 then min Res Cnt else Res)
    (Counters.headD 0)

/-- Modelled from the spec: the body of `BlockCoverage::FunctionWeights` is
declared in `FuzzerDataFlowTrace.h` but not present under `src/`.  Per
§4.5, a function with no coverage record weighs 0; a function with zero
observed blocks or zero uncovered blocks weighs 0; otherwise the weight
emphasises many uncovered blocks and a small smallest-nonzero hit count —
here the uncovered-block count divided by `SmallestNonZeroCounter`,
which is monotone in both factors as the spec requires. -/
def FunctionWeights (Functions : Nat → Option (List Nat))
    (NumFunctions : Nat) : List ℚ :=
  (List.range NumFunctions).map fun FunctionId =>
    match Functions FunctionId with
    | none => 0
    | some Counters =>
      if NumberOfCoveredBlocks Counters = 0 ∨
          NumberOfUncoveredBlocks Counters = 0 then 0
      else (NumberOfUncoveredBlocks Counters : ℚ) /
        (SmallestNonZeroCounter Counters : ℚ)

/-! ### Data-Flow Trace Loader lookup (§4.6, `DataFlowTrace::Get`) -/

/-- The loaded trace table: input fingerprint (sha1 string) to the focus
function's per-block byte vector (`std::unordered_map`, so keys are
unique). -/
structure DataFlowTrace where
  Traces : List (String × List Nat)
deriving DecidableEq, Repr

/-- `DataFlowTrace::Get`: look the fingerprint up in `Traces`; return the
stored vector when present, `nullptr` (here `none`) otherwise.  The method
is `const`: it takes the table and returns a value without producing a new
table. -/
def DataFlowTrace.Get (t : DataFlowTrace) (InputSha1 : String) :
    Option (List Nat) :=
  t.Traces.lookup InputSha1

/-- One `Get` call as a state transition: the result paired with the table
the call leaves behind (the method is `const`, so the table is passed on
unchanged). -/
def DataFlowTrace.GetStep (t : DataFlowTrace) (InputSha1 : String) :
    Option (List Nat) × DataFlowTrace :=
  (t.Get InputSha1, t)

/-- A sequence of `Get` calls threaded through the loader state. -/
def DataFlowTrace.runGets (queries : List String) (t : DataFlowTrace) :
    List (Option (List Nat)) × DataFlowTrace :=
  match queries with
  | [] => ([], t)
  | q :: qs =>
    let s1 := t.GetStep q
    let s2 := DataFlowTrace.runGets qs s1.2
    (s1.1 :: s2.1, s2.2)

/-- A concrete run of 33 identical capture events at one key, used to
evaluate the ring-wraparound statement on an input longer than the ring. -/
def witnessEvents : List CmpSubEvent :=
  List.replicate 33 ⟨fun _ => 5, 7, 9, 4⟩

/-- A concrete memory in which every range is readable and the byte at
address `a` is `a` (mod 256). -/
def witnessMem : Mem := ⟨fun _ _ => true, fun a => a⟩

/-- A concrete memory in which no range is readable. -/
def memNone : Mem := ⟨fun _ _ => false, fun _ => 0⟩

/-- A concrete register file: `RDI` holds 100, `RSI` holds 200, every
other register (including `RIP`) holds 5. -/
def witnessCtx : Nat → Nat := fun r =>
  if r = X86_REG_RDI then 100 else if r = X86_REG_RSI then 200 else 5

/-- A concrete 4-byte memory operand context (base and index absent,
displacement 77). -/
def memOp4 : cmplog_ctx_t :=
  { cmplog_ctx_zero with
    type := X86OpType.MEM,
    size := 4,
    mem := ⟨0, 0, 0, 1, 77⟩ }

/-- A concrete single-byte register-register compare instruction. -/
def byteCmpInstr : CsInsn :=
  ⟨X86InsId.CMP, 2,
    [⟨X86OpType.REG, 1, 3, 0, ⟨0, 0, 0, 1, 0⟩⟩,
     ⟨X86OpType.REG, 1, 4, 0, ⟨0, 0, 0, 1, 0⟩⟩]⟩

/-- A concrete register-indirect call instruction (would be instrumented
were the map region set up). -/
def callInstr : CsInsn :=
  ⟨X86InsId.CALL, 1, [⟨X86OpType.REG, 8, 3, 0, ⟨0, 0, 0, 1, 0⟩⟩]⟩

/-- A concrete coverage table: function 0 rare (smallest nonzero counter
1), function 1 common (smallest nonzero counter 5), both with one
uncovered block; function 2 fully covered; function 3 unrecorded. -/
def witnessCov : Nat → Option (List Nat) := fun f =>
  if f = 0 then some [1, 0]
  else if f = 1 then some [5, 0]
  else if f = 2 then some [3]
  else none

/-- A concrete loaded trace table with two fingerprints. -/
def witnessTrace : DataFlowTrace :=
  ⟨[("aaa", [1, 2]), ("bbb", [3])]⟩

/-- A concrete run of 9 identical call-site capture events at one key,
used to evaluate the `RTN` ring wraparound on an input longer than the
ring. -/
def witnessCallEvents : List CallEvent :=
  List.replicate 9 ⟨witnessCtx, witnessMem⟩

/-! ## Helper lemmas -/

lemma and_CMP_MAP_H (n : Nat) : n &&& (CMP_MAP_H - 1) = n % CMP_MAP_H := by
  have h := Nat.and_pow_two_sub_one_eq_mod n 5
  simpa [CMP_MAP_H] using h

lemma and_CMP_MAP_RTN_H (n : Nat) :
    n &&& (CMP_MAP_RTN_H - 1) = n % CMP_MAP_RTN_H := by
  have h := Nat.and_pow_two_sub_one_eq_mod n 3
  simpa [CMP_MAP_RTN_H] using h

lemma cmplog_read_mem_readable (mem : Mem) (ctxr : Nat → Nat) (size : Nat)
    (mo : X86OpMem)
    (hs : size = 1 ∨ size = 2 ∨ size = 4 ∨ size = 8)
    (h : cmplog_is_readable mem (memAddress ctxr mo) size = true) :
    cmplog_read_mem mem ctxr size mo =
      some (readLE mem (memAddress ctxr mo) size) := by
  rcases hs with hs | hs | hs | hs <;> subst hs <;>
    simp only [cmplog_read_mem, h, if_true]

lemma cmplog_read_mem_unreadable (mem : Mem) (ctxr : Nat → Nat)
    (size : Nat) (mo : X86OpMem)
    (h : cmplog_is_readable mem (memAddress ctxr mo) size = false) :
    cmplog_read_mem mem ctxr size mo = none := by
  simp only [cmplog_read_mem, h]
  simp

lemma NumberOfCoveredBlocks_go (cs : List Nat) : ∀ a : Nat,
    cs.foldl (fun Res Cnt => if Cnt ≠ 0 then Res + 1 else Res) a =
      a + cs.foldl (fun Res Cnt => if Cnt ≠ 0 then Res + 1 else Res) 0 := by
  induction cs with
  | nil =>
    intro a
    simp
  | cons c rest ih =>
    intro a
    by_cases hc : c ≠ 0
    · simp only [List.foldl_cons, if_pos hc]
      rw [ih (a + 1), ih (0 + 1)]
      omega
    · simp only [List.foldl_cons, if_neg hc]
      exact ih a

lemma NumberOfCoveredBlocks_eq_zero_iff (cs : List Nat) :
    NumberOfCoveredBlocks cs = 0 ↔ ∀ c ∈ cs, c = 0 := by
  induction cs with
  | nil => simp [NumberOfCoveredBlocks]
  | cons c rest ih =>
    unfold NumberOfCoveredBlocks at ih ⊢
    simp only [List.foldl_cons]
    by_cases hc : c ≠ 0
    · rw [if_pos hc, NumberOfCoveredBlocks_go rest (0 + 1)]
      constructor
      · intro h
        omega
      · intro h
        exact absurd (h c (by simp)) hc
    · rw [if_neg hc]
      push_neg at hc
      rw [ih]
      constructor
      · intro h x hx
        rcases List.mem_cons.mp hx with hx | hx
        · rw [hx]
          exact hc
        · exact h x hx
      · intro h x hx
        exact h x (List.mem_cons_of_mem _ hx)

lemma foldl_min_all_zero (cs : List Nat) (h : ∀ c ∈ cs, c = 0) : ∀ a : Nat,
    cs.foldl (fun Res Cnt => if Cnt ≠ 0 then min Res Cnt else Res) a = a := by
  induction cs with
  | nil =>
    intro a
    rfl
  | cons c rest ih =>
    intro a
    have hc : c = 0 := h c (by simp)
    simp only [List.foldl_cons, hc]
    rw [if_neg (by simp)]
    exact ih (fun x hx => h x (by simp [hx])) a

lemma SmallestNonZeroCounter_ne_zero_covered (cs : List Nat)
    (h : SmallestNonZeroCounter cs ≠ 0) : NumberOfCoveredBlocks cs ≠ 0 := by
  intro hcov
  apply h
  have hall := (NumberOfCoveredBlocks_eq_zero_iff cs).mp hcov
  unfold SmallestNonZeroCounter
  rw [foldl_min_all_zero cs hall]
  cases cs with
  | nil => rfl
  | cons c rest => simpa using hall c (by simp)

lemma FunctionWeights_getD (F : Nat → Option (List Nat)) (N f : Nat)
    (hf : f < N) :
    (FunctionWeights F N).getD f 0 =
      (match F f with
      | none => 0
      | some Counters =>
        if NumberOfCoveredBlocks Counters = 0 ∨
            NumberOfUncoveredBlocks Counters = 0 then 0
        else (NumberOfUncoveredBlocks Counters : ℚ) /
          (SmallestNonZeroCounter Counters : ℚ)) := by
  simp [FunctionWeights, List.getD_eq_getElem?_getD, List.getElem?_map,
    List.getElem?_range hf]

lemma lookup_iff_mem (l : List (String × List Nat))
    (hnodup : (l.map Prod.fst).Nodup) (s : String) (v : List Nat) :
    l.lookup s = some v ↔ (s, v) ∈ l := by
  induction l with
  | nil => simp [List.lookup]
  | cons p rest ih =>
    obtain ⟨k, w⟩ := p
    simp only [List.map_cons, List.nodup_cons] at hnodup
    by_cases hs : s = k
    · subst hs
      simp only [List.lookup, beq_self_eq_true]
      constructor
      · intro h
        rw [Option.some_inj] at h
        subst h
        exact List.mem_cons_self _ _
      · intro h
        rcases List.mem_cons.mp h with h | h
        · rw [Prod.mk.injEq] at h
          rw [h.2]
        · exfalso
          exact hnodup.1 (List.mem_map.mpr ⟨(s, v), h, rfl⟩)
    · have hbeq : (s == k) = false := beq_eq_false_iff_ne.mpr hs
      simp only [List.lookup, hbeq]
      rw [ih hnodup.2]
      constructor
      · intro h
        exact List.mem_cons_of_mem _ h
      · intro h
        rcases List.mem_cons.mp h with h | h
        · exact absurd (congrArg Prod.fst h) hs
        · exact h

/-- A fresh `INS` capture (stored type differs from `INS`, or the hit
counter is zero): the header becomes `⟨INS, size - 1, 1⟩`, the pair lands
in ring slot 0, and every other ring slot of the key is untouched. -/
lemma cmplog_handle_cmp_sub_fresh (hash ctxr : Nat → Nat) (m : CmpMap)
    (v0 v1 size : Nat)
    (h : (m.headers (hash (ctxr X86_REG_RIP))).type ≠ CmpType.INS ∨
      (m.headers (hash (ctxr X86_REG_RIP))).hits = 0) :
    (cmplog_handle_cmp_sub hash ctxr m v0 v1 size).headers
        (hash (ctxr X86_REG_RIP)) = ⟨CmpType.INS, size - 1, 1⟩ ∧
    (cmplog_handle_cmp_sub hash ctxr m v0 v1 size).log
        (hash (ctxr X86_REG_RIP)) 0 = LogEntry.ins v0 v1 ∧
    ∀ j, j ≠ 0 → (cmplog_handle_cmp_sub hash ctxr m v0 v1 size).log
        (hash (ctxr X86_REG_RIP)) j = m.log (hash (ctxr X86_REG_RIP)) j := by
  rcases h with h | h
  · simp [cmplog_handle_cmp_sub, CmpMap.setHeader, CmpMap.setLog, h, CMP_MAP_H]
    exact fun j hj hj2 => absurd hj2 hj
  · by_cases ht : (m.headers (hash (ctxr X86_REG_RIP))).type = CmpType.INS
    · simp [cmplog_handle_cmp_sub, CmpMap.setHeader, CmpMap.setLog, h, ht,
        CMP_MAP_H]
      exact fun j hj hj2 => absurd hj2 hj
    · simp [cmplog_handle_cmp_sub, CmpMap.setHeader, CmpMap.setLog, h, ht,
        CMP_MAP_H]
      exact fun j hj hj2 => absurd hj2 hj

/-- A subsequent `INS` capture (stored type already `INS`, nonzero hits):
the hit counter increments, type and shape are untouched, the pair lands in
ring slot `hits % CMP_MAP_H`, and every other ring slot of the key is
untouched. -/
lemma cmplog_handle_cmp_sub_step (hash ctxr : Nat → Nat) (m : CmpMap)
    (v0 v1 size : Nat)
    (ht : (m.headers (hash (ctxr X86_REG_RIP))).type = CmpType.INS)
    (hh : (m.headers (hash (ctxr X86_REG_RIP))).hits ≠ 0) :
    (cmplog_handle_cmp_sub hash ctxr m v0 v1 size).headers
        (hash (ctxr X86_REG_RIP)) =
      ⟨CmpType.INS, (m.headers (hash (ctxr X86_REG_RIP))).shape,
        (m.headers (hash (ctxr X86_REG_RIP))).hits + 1⟩ ∧
    (cmplog_handle_cmp_sub hash ctxr m v0 v1 size).log
        (hash (ctxr X86_REG_RIP))
        ((m.headers (hash (ctxr X86_REG_RIP))).hits % CMP_MAP_H) =
      LogEntry.ins v0 v1 ∧
    ∀ j, j ≠ (m.headers (hash (ctxr X86_REG_RIP))).hits % CMP_MAP_H →
      (cmplog_handle_cmp_sub hash ctxr m v0 v1 size).log
        (hash (ctxr X86_REG_RIP)) j =
        m.log (hash (ctxr X86_REG_RIP)) j := by
  refine ⟨?_, ?_, ?_⟩ <;>
    simp [cmplog_handle_cmp_sub, CmpMap.setHeader, CmpMap.setLog, ht, hh,
      and_CMP_MAP_H]
  exact fun j hj hj2 => absurd hj2 hj

/-- Captures at other keys: headers and log slots of any different key are
untouched. -/
lemma cmplog_handle_cmp_sub_other (hash ctxr : Nat → Nat) (m : CmpMap)
    (v0 v1 size : Nat) (k2 : Nat) (hk2 : k2 ≠ hash (ctxr X86_REG_RIP)) :
    (cmplog_handle_cmp_sub hash ctxr m v0 v1 size).headers k2 =
      m.headers k2 ∧
    ∀ j, (cmplog_handle_cmp_sub hash ctxr m v0 v1 size).log k2 j =
      m.log k2 j := by
  constructor <;>
    simp [cmplog_handle_cmp_sub, CmpMap.setHeader, CmpMap.setLog, hk2]

/-- A fresh call-site capture (stored type differs from `RTN`, or the hit
counter is zero) with all guards passing: the header becomes
`⟨RTN, 30, 1⟩`, the snapshot record lands in ring slot 0, and every other
ring slot of the key is untouched. -/
lemma cmplog_call_callout_fresh (hash : Nat → Nat) (mem : Mem)
    (ctxr : Nat → Nat) (m : CmpMap)
    (hw1 : 31 ≤ G_MAXULONG - ctxr X86_REG_RDI)
    (hw2 : 31 ≤ G_MAXULONG - ctxr X86_REG_RSI)
    (hr1 : cmplog_is_readable mem (ctxr X86_REG_RDI) 31 = true)
    (hr2 : cmplog_is_readable mem (ctxr X86_REG_RSI) 31 = true)
    (h : (m.headers (hash (ctxr X86_REG_RIP))).type ≠ CmpType.RTN ∨
      (m.headers (hash (ctxr X86_REG_RIP))).hits = 0) :
    (cmplog_call_callout hash mem ctxr m).headers
        (hash (ctxr X86_REG_RIP)) = ⟨CmpType.RTN, 30, 1⟩ ∧
    (cmplog_call_callout hash mem ctxr m).log (hash (ctxr X86_REG_RIP)) 0 =
      LogEntry.rtn 31 31 (snapshot31 mem (ctxr X86_REG_RDI))
        (snapshot31 mem (ctxr X86_REG_RSI)) ∧
    ∀ j, j ≠ 0 → (cmplog_call_callout hash mem ctxr m).log
        (hash (ctxr X86_REG_RIP)) j = m.log (hash (ctxr X86_REG_RIP)) j := by
  have hg : ¬ (G_MAXULONG - ctxr X86_REG_RDI < 31 ∨
      G_MAXULONG - ctxr X86_REG_RSI < 31) := by omega
  rcases h with h | h
  · simp [cmplog_call_callout, hg, hr1, hr2, h, CmpMap.setHeader,
      CmpMap.setLog, CMP_MAP_RTN_H]
    exact fun j hj hj2 => absurd hj2 hj
  · by_cases ht : (m.headers (hash (ctxr X86_REG_RIP))).type = CmpType.RTN
    · simp [cmplog_call_callout, hg, hr1, hr2, h, ht, CmpMap.setHeader,
        CmpMap.setLog, CMP_MAP_RTN_H]
      exact fun j hj hj2 => absurd hj2 hj
    · simp [cmplog_call_callout, hg, hr1, hr2, h, ht, CmpMap.setHeader,
        CmpMap.setLog, CMP_MAP_RTN_H]
      exact fun j hj hj2 => absurd hj2 hj

/-- A subsequent call-site capture (stored type already `RTN`, nonzero
hits) with all guards passing: the hit counter increments, type and shape
are untouched, the snapshot record lands in ring slot
`hits % CMP_MAP_RTN_H`, and every other ring slot of the key is
untouched. -/
lemma cmplog_call_callout_step (hash : Nat → Nat) (mem : Mem)
    (ctxr : Nat → Nat) (m : CmpMap)
    (hw1 : 31 ≤ G_MAXULONG - ctxr X86_REG_RDI)
    (hw2 : 31 ≤ G_MAXULONG - ctxr X86_REG_RSI)
    (hr1 : cmplog_is_readable mem (ctxr X86_REG_RDI) 31 = true)
    (hr2 : cmplog_is_readable mem (ctxr X86_REG_RSI) 31 = true)
    (ht : (m.headers (hash (ctxr X86_REG_RIP))).type = CmpType.RTN)
    (hh : (m.headers (hash (ctxr X86_REG_RIP))).hits ≠ 0) :
    (cmplog_call_callout hash mem ctxr m).headers
        (hash (ctxr X86_REG_RIP)) =
      ⟨CmpType.RTN, (m.headers (hash (ctxr X86_REG_RIP))).shape,
        (m.headers (hash (ctxr X86_REG_RIP))).hits + 1⟩ ∧
    (cmplog_call_callout hash mem ctxr m).log (hash (ctxr X86_REG_RIP))
        ((m.headers (hash (ctxr X86_REG_RIP))).hits % CMP_MAP_RTN_H) =
      LogEntry.rtn 31 31 (snapshot31 mem (ctxr X86_REG_RDI))
        (snapshot31 mem (ctxr X86_REG_RSI)) ∧
    ∀ j, j ≠ (m.headers (hash (ctxr X86_REG_RIP))).hits % CMP_MAP_RTN_H →
      (cmplog_call_callout hash mem ctxr m).log
        (hash (ctxr X86_REG_RIP)) j =
        m.log (hash (ctxr X86_REG_RIP)) j := by
  have hg : ¬ (G_MAXULONG - ctxr X86_REG_RDI < 31 ∨
      G_MAXULONG - ctxr X86_REG_RSI < 31) := by omega
  refine ⟨?_, ?_, ?_⟩ <;>
    simp [cmplog_call_callout, hg, hr1, hr2, ht, hh, CmpMap.setHeader,
      CmpMap.setLog, and_CMP_MAP_RTN_H]
  exact fun j hj hj2 => absurd hj2 hj

/-- Invariant of a run of call-site captures at one key whose header is
already `⟨RTN, s, h⟩` with `h ≠ 0`: the hit counter grows by one per
event, type and shape are untouched, event `p` of the run lands in ring
slot `(h + p) % CMP_MAP_RTN_H`, a slot survives exactly until the next
event mapped to it, and untouched slots keep their old contents. -/
lemma applyCalls_RTN (hash : Nat → Nat) (k : Nat) :
    ∀ (es : List CallEvent) (m : CmpMap) (s h : Nat),
    (∀ e ∈ es, callCaptureOk hash k e) →
    m.headers k = ⟨CmpType.RTN, s, h⟩ → h ≠ 0 →
    (applyCalls hash m es).headers k =
      ⟨CmpType.RTN, s, h + es.length⟩ ∧
    (∀ j, (∀ p, p < es.length → (h + p) % CMP_MAP_RTN_H ≠ j) →
      (applyCalls hash m es).log k j = m.log k j) ∧
    (∀ p (hp : p < es.length),
      (∀ q, p < q → q < es.length →
        (h + q) % CMP_MAP_RTN_H ≠ (h + p) % CMP_MAP_RTN_H) →
      (applyCalls hash m es).log k ((h + p) % CMP_MAP_RTN_H) =
        callRecord (es.get ⟨p, hp⟩)) := by
  intro es
  induction es with
  | nil =>
    intro m s h _ hhdr _
    refine ⟨by simpa [applyCalls] using hhdr, ?_, ?_⟩
    · intro j _
      simp [applyCalls]
    · intro p hp
      simp at hp
  | cons e rest ih =>
    intro m s h hall hhdr hne
    obtain ⟨hk, hw1, hw2, hr1, hr2⟩ := hall e (List.mem_cons_self _ _)
    have hrest : ∀ x ∈ rest, callCaptureOk hash k x :=
      fun x hx => hall x (List.mem_cons_of_mem _ hx)
    have ht : (m.headers (hash (e.ctxr X86_REG_RIP))).type = CmpType.RTN := by
      rw [hk, hhdr]
    have hh : (m.headers (hash (e.ctxr X86_REG_RIP))).hits ≠ 0 := by
      rw [hk, hhdr]; exact hne
    obtain ⟨sh, sl, sfr⟩ :=
      cmplog_call_callout_step hash e.mem e.ctxr m hw1 hw2 hr1 hr2 ht hh
    simp only [hk, hhdr] at sh sl sfr
    have hunfold : applyCalls hash m (e :: rest) =
        applyCalls hash (cmplog_call_callout hash e.mem e.ctxr m) rest := by
      simp [applyCalls, applyCall]
    obtain ⟨ih1, ih2, ih3⟩ :=
      ih (cmplog_call_callout hash e.mem e.ctxr m) s (h + 1) hrest sh
        (by omega)
    refine ⟨?_, ?_, ?_⟩
    · rw [hunfold, ih1]
      simp only [List.length_cons]
      congr 1
      omega
    · intro j hj
      rw [hunfold]
      have hj2 : ∀ p, p < rest.length → (h + 1 + p) % CMP_MAP_RTN_H ≠ j := by
        intro p hp
        have h2 := hj (p + 1) (by simp; omega)
        have h3 : h + 1 + p = h + (p + 1) := by omega
        rw [h3]; exact h2
      rw [ih2 j hj2]
      exact sfr j (by
        have h0 := hj 0 (by simp)
        simpa using fun hcontr => h0 (by simpa using hcontr.symm))
    · intro p hp hlater
      match p, hp with
      | 0, hp =>
        rw [hunfold]
        have hj2 : ∀ q, q < rest.length →
            (h + 1 + q) % CMP_MAP_RTN_H ≠ (h + 0) % CMP_MAP_RTN_H := by
          intro q hq
          have h2 := hlater (q + 1) (by omega) (by simp; omega)
          have h3 : h + 1 + q = h + (q + 1) := by omega
          rw [h3]; exact h2
        rw [ih2 _ hj2]
        simpa [callRecord] using sl
      | p + 1, hp =>
        rw [hunfold]
        have hlater2 : ∀ q, p < q → q < rest.length →
            (h + 1 + q) % CMP_MAP_RTN_H ≠ (h + 1 + p) % CMP_MAP_RTN_H := by
          intro q hq1 hq2
          have h2 := hlater (q + 1) (by omega) (by simp; omega)
          have h3 : h + 1 + q = h + (q + 1) := by omega
          have h4 : h + 1 + p = h + (p + 1) := by omega
          rw [h3, h4]; exact h2
        have h5 := ih3 p (by simpa using Nat.lt_of_succ_lt_succ hp) hlater2
        have h6 : h + 1 + p = h + (p + 1) := by omega
        rw [h6] at h5
        rw [h5]
        simp

/-- Invariant of a run of `INS` captures at one key whose header is already
`⟨INS, s, h⟩` with `h ≠ 0`: the hit counter grows by one per event, type
and shape are untouched, event `p` of the run lands in ring slot
`(h + p) % CMP_MAP_H`, a slot survives exactly until the next event mapped
to it, and untouched slots keep their old contents. -/
lemma applyCmpSubs_INS (hash : Nat → Nat) (k : Nat) :
    ∀ (es : List CmpSubEvent) (m : CmpMap) (s h : Nat),
    (∀ e ∈ es, hash (e.ctxr X86_REG_RIP) = k) →
    m.headers k = ⟨CmpType.INS, s, h⟩ → h ≠ 0 →
    (applyCmpSubs hash m es).headers k =
      ⟨CmpType.INS, s, h + es.length⟩ ∧
    (∀ j, (∀ p, p < es.length → (h + p) % CMP_MAP_H ≠ j) →
      (applyCmpSubs hash m es).log k j = m.log k j) ∧
    (∀ p (hp : p < es.length),
      (∀ q, p < q → q < es.length →
        (h + q) % CMP_MAP_H ≠ (h + p) % CMP_MAP_H) →
      (applyCmpSubs hash m es).log k ((h + p) % CMP_MAP_H) =
        LogEntry.ins (es.get ⟨p, hp⟩).v0 (es.get ⟨p, hp⟩).v1) := by
  intro es
  induction es with
  | nil =>
    intro m s h _ hhdr _
    refine ⟨by simpa [applyCmpSubs] using hhdr, ?_, ?_⟩
    · intro j _
      simp [applyCmpSubs]
    · intro p hp
      simp at hp
  | cons e rest ih =>
    intro m s h hall hhdr hne
    have hk : hash (e.ctxr X86_REG_RIP) = k := hall e (List.mem_cons_self _ _)
    have hrest : ∀ x ∈ rest, hash (x.ctxr X86_REG_RIP) = k :=
      fun x hx => hall x (List.mem_cons_of_mem _ hx)
    have ht : (m.headers (hash (e.ctxr X86_REG_RIP))).type = CmpType.INS := by
      rw [hk, hhdr]
    have hh : (m.headers (hash (e.ctxr X86_REG_RIP))).hits ≠ 0 := by
      rw [hk, hhdr]; exact hne
    obtain ⟨sh, sl, sfr⟩ :=
      cmplog_handle_cmp_sub_step hash e.ctxr m e.v0 e.v1 e.size ht hh
    simp only [hk, hhdr] at sh sl sfr
    have hunfold : applyCmpSubs hash m (e :: rest) =
        applyCmpSubs hash (cmplog_handle_cmp_sub hash e.ctxr m e.v0 e.v1 e.size)
          rest := by
      simp [applyCmpSubs, applyCmpSub]
    obtain ⟨ih1, ih2, ih3⟩ :=
      ih (cmplog_handle_cmp_sub hash e.ctxr m e.v0 e.v1 e.size) s (h + 1)
        hrest sh (by omega)
    refine ⟨?_, ?_, ?_⟩
    · rw [hunfold, ih1]
      simp only [List.length_cons]
      congr 1
      omega
    · intro j hj
      rw [hunfold]
      have hj2 : ∀ p, p < rest.length → (h + 1 + p) % CMP_MAP_H ≠ j := by
        intro p hp
        have h2 := hj (p + 1) (by simp; omega)
        have h3 : h + 1 + p = h + (p + 1) := by omega
        rw [h3]; exact h2
      rw [ih2 j hj2]
      exact sfr j (by
        have h0 := hj 0 (by simp)
        simpa using fun hcontr => h0 (by simpa using hcontr.symm))
    · intro p hp hlater
      match p, hp with
      | 0, hp =>
        rw [hunfold]
        have hj2 : ∀ q, q < rest.length →
            (h + 1 + q) % CMP_MAP_H ≠ (h + 0) % CMP_MAP_H := by
          intro q hq
          have h2 := hlater (q + 1) (by omega) (by simp; omega)
          have h3 : h + 1 + q = h + (q + 1) := by omega
          rw [h3]; exact h2
        rw [ih2 _ hj2]
        simpa using sl
      | p + 1, hp =>
        rw [hunfold]
        have hlater2 : ∀ q, p < q → q < rest.length →
            (h + 1 + q) % CMP_MAP_H ≠ (h + 1 + p) % CMP_MAP_H := by
          intro q hq1 hq2
          have h2 := hlater (q + 1) (by omega) (by simp; omega)
          have h3 : h + 1 + q = h + (q + 1) := by omega
          have h4 : h + 1 + p = h + (p + 1) := by omega
          rw [h3, h4]; exact h2
        have h5 := ih3 p (by simpa using Nat.lt_of_succ_lt_succ hp) hlater2
        have h6 : h + 1 + p = h + (p + 1) := by omega
        rw [h6] at h5
        rw [h5]
        simp

/-! ## Claim theorems -/

/-- Claim C1: a comparison/subtraction capture at a key whose stored type
differs from `INS` resets the hit counter and re-classifies the entry as
`INS` with `shape = size - 1`, appends the operand pair at ring slot 0 and
increments the hit counter to exactly 1; after that re-classification, a
run of further captures at the key leaves `shape` at the re-classifying
width minus one and `hits` equal to the number of events since the
re-classification. -/
theorem claim_C1 (hash : Nat → Nat) (k : Nat) (m : CmpMap)
    (e : CmpSubEvent) (es : List CmpSubEvent)
    (hk : hash (e.ctxr X86_REG_RIP) = k)
    (hes : ∀ x ∈ es, hash (x.ctxr X86_REG_RIP) = k)
    (hfresh : (m.headers k).type ≠ CmpType.INS) :
    (applyCmpSub hash m e).headers k = ⟨CmpType.INS, e.size - 1, 1⟩ ∧
    (applyCmpSub hash m e).log k 0 = LogEntry.ins e.v0 e.v1 ∧
    (applyCmpSubs hash m (e :: es)).headers k =
      ⟨CmpType.INS, e.size - 1, 1 + es.length⟩ := by
  obtain ⟨h1, h2, _⟩ :=
    cmplog_handle_cmp_sub_fresh hash e.ctxr m e.v0 e.v1 e.size
      (by rw [hk]; exact Or.inl hfresh)
  rw [hk] at h1 h2
  refine ⟨h1, h2, ?_⟩
  have hunfold : applyCmpSubs hash m (e :: es) =
      applyCmpSubs hash (applyCmpSub hash m e) es := by
    simp [applyCmpSubs]
  obtain ⟨ih1, _, _⟩ :=
    applyCmpSubs_INS hash k es (applyCmpSub hash m e) (e.size - 1) 1 hes h1
      (by omega)
  rw [hunfold, ih1]

/-- Concrete evaluation of `claim_C1`: two 4-byte captures at key 5 on the
all-zero map yield an `INS` header with shape 3, the first pair in slot 0,
and a hit counter equal to the event count. -/
theorem claim_C1_witness :
    (applyCmpSub (fun a => a) CmpMap.init ⟨fun _ => 5, 7, 9, 4⟩).headers 5 =
      ⟨CmpType.INS, 3, 1⟩ ∧
    (applyCmpSub (fun a => a) CmpMap.init ⟨fun _ => 5, 7, 9, 4⟩).log 5 0 =
      LogEntry.ins 7 9 ∧
    (applyCmpSubs (fun a => a) CmpMap.init
        [⟨fun _ => 5, 7, 9, 4⟩, ⟨fun _ => 5, 1, 2, 4⟩]).headers 5 =
      ⟨CmpType.INS, 3, 1 + 1⟩ :=
  claim_C1 (fun a => a) 5 CmpMap.init ⟨fun _ => 5, 7, 9, 4⟩
    [⟨fun _ => 5, 1, 2, 4⟩] rfl
    (by intro x hx; rw [List.mem_singleton] at hx; subst hx; rfl)
    (by decide)

/-- Claim C2: at one key the hit counter increases by one per capture of
the entry's kind; each capture is written at ring index
`hits % ring_capacity`, the ring capacities being the powers of two
`2 ^ 5` (`INS`) and `2 ^ 3` (`RTN`); and after more than `ring_capacity`
captures at a fresh key the ring contains exactly the last `ring_capacity`
captures in time order, event `i` in slot `i % ring_capacity`, oldest
overwritten first, with the update total (no overflow error) — for
comparison/subtraction captures and call-site captures alike. -/
theorem claim_C2 (hash : Nat → Nat) (k : Nat) (m : CmpMap) :
    CMP_MAP_H = 2 ^ 5 ∧
    (∀ e : CmpSubEvent, hash (e.ctxr X86_REG_RIP) = k →
      (m.headers k).type = CmpType.INS →
      ((applyCmpSub hash m e).headers k).hits = (m.headers k).hits + 1 ∧
      (applyCmpSub hash m e).log k ((m.headers k).hits % CMP_MAP_H) =
        LogEntry.ins e.v0 e.v1) ∧
    (∀ es : List CmpSubEvent,
      (∀ x ∈ es, hash (x.ctxr X86_REG_RIP) = k) →
      (m.headers k).type ≠ CmpType.INS →
      CMP_MAP_H < es.length →
      ((applyCmpSubs hash m es).headers k).hits = es.length ∧
      ∀ i (hi : i < es.length), es.length - CMP_MAP_H ≤ i →
        (applyCmpSubs hash m es).log k (i % CMP_MAP_H) =
          LogEntry.ins (es.get ⟨i, hi⟩).v0 (es.get ⟨i, hi⟩).v1) ∧
    CMP_MAP_RTN_H = 2 ^ 3 ∧
    (∀ e : CallEvent, callCaptureOk hash k e →
      (m.headers k).type = CmpType.RTN →
      ((applyCall hash m e).headers k).hits = (m.headers k).hits + 1 ∧
      (applyCall hash m e).log k ((m.headers k).hits % CMP_MAP_RTN_H) =
        callRecord e) ∧
    (∀ es : List CallEvent,
      (∀ x ∈ es, callCaptureOk hash k x) →
      (m.headers k).type ≠ CmpType.RTN →
      CMP_MAP_RTN_H < es.length →
      ((applyCalls hash m es).headers k).hits = es.length ∧
      ∀ i (hi : i < es.length), es.length - CMP_MAP_RTN_H ≤ i →
        (applyCalls hash m es).log k (i % CMP_MAP_RTN_H) =
          callRecord (es.get ⟨i, hi⟩)) := by
  refine ⟨rfl, ?_, ?_, rfl, ?_, ?_⟩
  · intro e hk ht
    by_cases hz : (m.headers k).hits = 0
    · obtain ⟨h1, h2, _⟩ :=
        cmplog_handle_cmp_sub_fresh hash e.ctxr m e.v0 e.v1 e.size
          (by rw [hk]; exact Or.inr hz)
      rw [hk] at h1 h2
      constructor
      · rw [show applyCmpSub hash m e =
          cmplog_handle_cmp_sub hash e.ctxr m e.v0 e.v1 e.size from rfl, h1, hz]
      · rw [hz]
        simpa using h2
    · obtain ⟨h1, h2, _⟩ :=
        cmplog_handle_cmp_sub_step hash e.ctxr m e.v0 e.v1 e.size
          (by rw [hk]; exact ht) (by rw [hk]; exact hz)
      rw [hk] at h1 h2
      constructor
      · rw [show applyCmpSub hash m e =
          cmplog_handle_cmp_sub hash e.ctxr m e.v0 e.v1 e.size from rfl, h1]
      · exact h2
  · intro es hes hfresh hlen
    match es, hes, hlen with
    | e :: rest, hes, hlen =>
      have hk : hash (e.ctxr X86_REG_RIP) = k := hes e (List.mem_cons_self _ _)
      have hrest : ∀ x ∈ rest, hash (x.ctxr X86_REG_RIP) = k :=
        fun x hx => hes x (List.mem_cons_of_mem _ hx)
      obtain ⟨h1, h2, _⟩ :=
        cmplog_handle_cmp_sub_fresh hash e.ctxr m e.v0 e.v1 e.size
          (by rw [hk]; exact Or.inl hfresh)
      rw [hk] at h1 h2
      have hunfold : applyCmpSubs hash m (e :: rest) =
          applyCmpSubs hash (applyCmpSub hash m e) rest := by
        simp [applyCmpSubs]
      obtain ⟨ih1, ih2, ih3⟩ :=
        applyCmpSubs_INS hash k rest (applyCmpSub hash m e) (e.size - 1) 1
          hrest h1 (by omega)
      refine ⟨?_, ?_⟩
      · rw [hunfold, ih1]
        show 1 + rest.length = (e :: rest).length
        simp only [List.length_cons]
        omega
      intro i hi hwin
      simp only [List.length_cons] at hi hwin hlen
      match i, hi with
      | 0, hi =>
        exfalso
        omega
      | p + 1, hi =>
        have hp : p < rest.length := by omega
        have hcond : ∀ q, p < q → q < rest.length →
            (1 + q) % CMP_MAP_H ≠ (1 + p) % CMP_MAP_H := by
          intro q hq1 hq2 hmod
          have hle : 1 + p ≤ 1 + q := by omega
          have hdvd : CMP_MAP_H ∣ (1 + q) - (1 + p) :=
            (Nat.modEq_iff_dvd' hle).mp hmod.symm
          have hge : CMP_MAP_H ≤ (1 + q) - (1 + p) :=
            Nat.le_of_dvd (by omega) hdvd
          simp [CMP_MAP_H] at hge hwin
          omega
        have h5 := ih3 p hp hcond
        rw [hunfold]
        have h6 : (1 + p) % CMP_MAP_H = (p + 1) % CMP_MAP_H := by
          rw [Nat.add_comm]
        rw [h6] at h5
        rw [h5]
        simp
  · intro e hok ht
    obtain ⟨hk, hw1, hw2, hr1, hr2⟩ := hok
    by_cases hz : (m.headers k).hits = 0
    · obtain ⟨h1, h2, _⟩ :=
        cmplog_call_callout_fresh hash e.mem e.ctxr m hw1 hw2 hr1 hr2
          (by rw [hk]; exact Or.inr hz)
      rw [hk] at h1 h2
      constructor
      · rw [show applyCall hash m e =
          cmplog_call_callout hash e.mem e.ctxr m from rfl, h1, hz]
      · rw [hz]
        simpa [callRecord] using h2
    · obtain ⟨h1, h2, _⟩ :=
        cmplog_call_callout_step hash e.mem e.ctxr m hw1 hw2 hr1 hr2
          (by rw [hk]; exact ht) (by rw [hk]; exact hz)
      rw [hk] at h1 h2
      constructor
      · rw [show applyCall hash m e =
          cmplog_call_callout hash e.mem e.ctxr m from rfl, h1]
      · simpa [callRecord] using h2
  · intro es hes hfresh hlen
    match es, hes, hlen with
    | e :: rest, hes, hlen =>
      obtain ⟨hk, hw1, hw2, hr1, hr2⟩ := hes e (List.mem_cons_self _ _)
      have hrest : ∀ x ∈ rest, callCaptureOk hash k x :=
        fun x hx => hes x (List.mem_cons_of_mem _ hx)
      obtain ⟨h1, h2, _⟩ :=
        cmplog_call_callout_fresh hash e.mem e.ctxr m hw1 hw2 hr1 hr2
          (by rw [hk]; exact Or.inl hfresh)
      rw [hk] at h1 h2
      have hunfold : applyCalls hash m (e :: rest) =
          applyCalls hash (applyCall hash m e) rest := by
        simp [applyCalls]
      obtain ⟨ih1, ih2, ih3⟩ :=
        applyCalls_RTN hash k rest (applyCall hash m e) 30 1 hrest h1
          (by omega)
      refine ⟨?_, ?_⟩
      · rw [hunfold, ih1]
        show 1 + rest.length = (e :: rest).length
        simp only [List.length_cons]
        omega
      intro i hi hwin
      simp only [List.length_cons] at hi hwin hlen
      match i, hi with
      | 0, hi =>
        exfalso
        omega
      | p + 1, hi =>
        have hp : p < rest.length := by omega
        have hcond : ∀ q, p < q → q < rest.length →
            (1 + q) % CMP_MAP_RTN_H ≠ (1 + p) % CMP_MAP_RTN_H := by
          intro q hq1 hq2 hmod
          have hle : 1 + p ≤ 1 + q := by omega
          have hdvd : CMP_MAP_RTN_H ∣ (1 + q) - (1 + p) :=
            (Nat.modEq_iff_dvd' hle).mp hmod.symm
          have hge : CMP_MAP_RTN_H ≤ (1 + q) - (1 + p) :=
            Nat.le_of_dvd (by omega) hdvd
          simp [CMP_MAP_RTN_H] at hge hwin
          omega
        have h5 := ih3 p hp hcond
        rw [hunfold]
        have h6 : (1 + p) % CMP_MAP_RTN_H = (p + 1) % CMP_MAP_RTN_H := by
          rw [Nat.add_comm]
        rw [h6] at h5
        rw [h5]
        simp

/-- Concrete evaluation of `claim_C2`: 33 comparison captures at key 5 on
the all-zero map leave the hit counter at 33 with event 32 in ring slot
`32 % 32 = 0`, and 9 call-site captures leave the hit counter at 9 with
event 8 in ring slot `8 % 8 = 0`. -/
theorem claim_C2_witness :
    ((applyCmpSubs (fun a => a) CmpMap.init witnessEvents).headers 5).hits
      = 33 ∧
    (applyCmpSubs (fun a => a) CmpMap.init witnessEvents).log 5
      (32 % CMP_MAP_H) = LogEntry.ins 7 9 ∧
    ((applyCalls (fun a => a) CmpMap.init witnessCallEvents).headers 5).hits
      = 9 ∧
    (applyCalls (fun a => a) CmpMap.init witnessCallEvents).log 5
      (8 % CMP_MAP_RTN_H) = callRecord ⟨witnessCtx, witnessMem⟩ := by
  have h := (claim_C2 (fun a => a) 5 CmpMap.init).2.2.1 witnessEvents
    (fun x hx => by rw [List.eq_of_mem_replicate hx])
    (by decide) (by decide)
  have hc := (claim_C2 (fun a => a) 5 CmpMap.init).2.2.2.2.2
    witnessCallEvents
    (fun x hx => by
      rw [List.eq_of_mem_replicate hx]
      exact ⟨rfl, by decide, by decide, rfl, rfl⟩)
    (by decide) (by decide)
  refine ⟨by simpa [witnessEvents] using h.1, ?_,
    by simpa [witnessCallEvents] using hc.1, ?_⟩
  · have h2 := h.2 32 (by decide) (by decide)
    simpa [witnessEvents] using h2
  · have h2 := hc.2 8 (by decide) (by decide)
    simpa [witnessCallEvents] using h2

/-- Claim C3: when both pointer registers pass the wrap guard and point to
31 readable bytes, the call callout snapshots 31 bytes from each pointer
into the `RTN` entry at the call site's key: with stored type not `RTN` or
a zero hit counter the entry is forced to `⟨RTN, 30, 1⟩` and the record
lands in slot 0; otherwise only the counter increments and the record lands
in slot `hits % CMP_MAP_RTN_H`, the mask `&&& (CMP_MAP_RTN_H - 1)` being
the mod by the power-of-two ring capacity. -/
theorem claim_C3 (hash : Nat → Nat) (mem : Mem) (ctxr : Nat → Nat)
    (m : CmpMap) (k : Nat)
    (hk : hash (ctxr X86_REG_RIP) = k)
    (hw1 : 31 ≤ G_MAXULONG - ctxr X86_REG_RDI)
    (hw2 : 31 ≤ G_MAXULONG - ctxr X86_REG_RSI)
    (hr1 : cmplog_is_readable mem (ctxr X86_REG_RDI) 31 = true)
    (hr2 : cmplog_is_readable mem (ctxr X86_REG_RSI) 31 = true) :
    ((m.headers k).type ≠ CmpType.RTN ∨ (m.headers k).hits = 0 →
      (cmplog_call_callout hash mem ctxr m).headers k =
        ⟨CmpType.RTN, 30, 1⟩ ∧
      (cmplog_call_callout hash mem ctxr m).log k 0 =
        LogEntry.rtn 31 31 (snapshot31 mem (ctxr X86_REG_RDI))
          (snapshot31 mem (ctxr X86_REG_RSI))) ∧
    ((m.headers k).type = CmpType.RTN → (m.headers k).hits ≠ 0 →
      (cmplog_call_callout hash mem ctxr m).headers k =
        ⟨CmpType.RTN, (m.headers k).shape, (m.headers k).hits + 1⟩ ∧
      (cmplog_call_callout hash mem ctxr m).log k
          ((m.headers k).hits % CMP_MAP_RTN_H) =
        LogEntry.rtn 31 31 (snapshot31 mem (ctxr X86_REG_RDI))
          (snapshot31 mem (ctxr X86_REG_RSI))) ∧
    (snapshot31 mem (ctxr X86_REG_RDI)).length = 31 ∧
    (snapshot31 mem (ctxr X86_REG_RSI)).length = 31 ∧
    CMP_MAP_RTN_H = 2 ^ 3 ∧
    ∀ n, n &&& (CMP_MAP_RTN_H - 1) = n % CMP_MAP_RTN_H := by
  have hg : ¬ (G_MAXULONG - ctxr X86_REG_RDI < 31 ∨
      G_MAXULONG - ctxr X86_REG_RSI < 31) := by omega
  refine ⟨?_, ?_, by simp [snapshot31], by simp [snapshot31], rfl,
    and_CMP_MAP_RTN_H⟩
  · intro hfresh
    rcases hfresh with hfresh | hfresh
    · constructor <;>
        simp [cmplog_call_callout, hg, hr1, hr2, hfresh, hk,
          CmpMap.setHeader, CmpMap.setLog, CMP_MAP_RTN_H]
    · by_cases ht : (m.headers k).type = CmpType.RTN
      · constructor <;>
          simp [cmplog_call_callout, hg, hr1, hr2, hfresh, ht, hk,
            CmpMap.setHeader, CmpMap.setLog, CMP_MAP_RTN_H]
      · constructor <;>
          simp [cmplog_call_callout, hg, hr1, hr2, hfresh, ht, hk,
            CmpMap.setHeader, CmpMap.setLog, CMP_MAP_RTN_H]
  · intro ht hh
    constructor <;>
      simp [cmplog_call_callout, hg, hr1, hr2, ht, hh, hk,
        CmpMap.setHeader, CmpMap.setLog, and_CMP_MAP_RTN_H]

/-- Concrete evaluation of `claim_C3`: a first call-site capture at key 5
on the all-zero map yields header `⟨RTN, 30, 1⟩` and the two 31-byte
snapshots in ring slot 0. -/
theorem claim_C3_witness :
    (cmplog_call_callout (fun a => a) witnessMem witnessCtx
        CmpMap.init).headers 5 = ⟨CmpType.RTN, 30, 1⟩ ∧
    (cmplog_call_callout (fun a => a) witnessMem witnessCtx
        CmpMap.init).log 5 0 =
      LogEntry.rtn 31 31 (snapshot31 witnessMem 100)
        (snapshot31 witnessMem 200) :=
  (claim_C3 (fun a => a) witnessMem witnessCtx CmpMap.init 5 rfl
    (by decide) (by decide) rfl rfl).1 (Or.inl (by decide))

/-- Claim C9: when either pointer register is within 31 bytes of the top of
the 64-bit address space, the call callout returns before any readability
check or memory access — for every memory state the map is unchanged. -/
theorem claim_C9 (hash : Nat → Nat) (ctxr : Nat → Nat) (m : CmpMap)
    (h : G_MAXULONG - ctxr X86_REG_RDI < 31 ∨
      G_MAXULONG - ctxr X86_REG_RSI < 31) :
    ∀ mem : Mem, cmplog_call_callout hash mem ctxr m = m := by
  intro mem
  simp only [cmplog_call_callout]
  rw [if_pos h]

/-- Concrete evaluation of `claim_C9`: with `RDI` at the very top of the
address space the callout is a no-op even on fully readable memory. -/
theorem claim_C9_witness :
    cmplog_call_callout (fun a => a) witnessMem (fun _ => G_MAXULONG)
      CmpMap.init = CmpMap.init :=
  claim_C9 (fun a => a) (fun _ => G_MAXULONG) CmpMap.init
    (Or.inl (by decide)) witnessMem

/-- Claim C5: a capture whose first operand evaluation fails, or whose
first succeeds and second fails, is skipped with the map entirely
unchanged; likewise a call-site capture where either pointer argument
references fewer than 31 readable bytes. -/
theorem claim_C5 (hash : Nat → Nat) (mem : Mem) (ctxr : Nat → Nat)
    (m : CmpMap) :
    (∀ ctx : cmplog_pair_ctx_t,
      cmplog_get_operand_value mem ctxr ctx.operand1 = none →
      cmplog_cmp_sub_callout hash mem ctxr ctx m = m) ∧
    (∀ (ctx : cmplog_pair_ctx_t) (v : Nat),
      cmplog_get_operand_value mem ctxr ctx.operand1 = some v →
      cmplog_get_operand_value mem ctxr ctx.operand2 = none →
      cmplog_cmp_sub_callout hash mem ctxr ctx m = m) ∧
    ((cmplog_is_readable mem (ctxr X86_REG_RDI) 31 = false ∨
      cmplog_is_readable mem (ctxr X86_REG_RSI) 31 = false) →
      cmplog_call_callout hash mem ctxr m = m) := by
  refine ⟨?_, ?_, ?_⟩
  · intro ctx h
    simp [cmplog_cmp_sub_callout, h]
  · intro ctx v h1 h2
    simp [cmplog_cmp_sub_callout, h1, h2]
  · intro h
    by_cases hg : G_MAXULONG - ctxr X86_REG_RDI < 31 ∨
        G_MAXULONG - ctxr X86_REG_RSI < 31
    · simp only [cmplog_call_callout]
      rw [if_pos hg]
    · simp only [cmplog_call_callout]
      rw [if_neg hg, if_pos ?hcond]
      case hcond =>
        rcases h with h | h
        · exact Or.inl (by simp [h])
        · exact Or.inr (by simp [h])

/-- Concrete evaluation of `claim_C5`: on fully unreadable memory a
memory-operand comparison capture and a call-site capture both leave the
all-zero map untouched. -/
theorem claim_C5_witness :
    cmplog_cmp_sub_callout (fun a => a) memNone (fun _ => 5)
      ⟨memOp4, memOp4⟩ CmpMap.init = CmpMap.init ∧
    cmplog_call_callout (fun a => a) memNone (fun _ => 5)
      CmpMap.init = CmpMap.init := by
  have h := claim_C5 (fun a => a) memNone (fun _ => 5) CmpMap.init
  exact ⟨h.1 ⟨memOp4, memOp4⟩ (by decide), h.2.2 (Or.inl (by decide))⟩

/-- Claim C4: the Operand Evaluator always succeeds on a register operand
with the register's value and on an immediate with the embedded constant
(as a 64-bit unsigned value); on a memory operand it computes
`address = base + index * scale + disp` with absent sub-fields contributing
zero, and succeeds with the little-endian bytes at that address exactly
when the range is readable, failing with `none` otherwise. -/
theorem claim_C4 (mem : Mem) (ctxr : Nat → Nat) :
    (∀ ctx : cmplog_ctx_t, ctx.type = X86OpType.REG →
      cmplog_get_operand_value mem ctxr ctx = some (ctxr ctx.reg)) ∧
    (∀ ctx : cmplog_ctx_t, ctx.type = X86OpType.IMM →
      cmplog_get_operand_value mem ctxr ctx = some (toGsize ctx.imm)) ∧
    (∀ ctx : cmplog_ctx_t, ctx.type = X86OpType.MEM →
      ctx.size = 1 ∨ ctx.size = 2 ∨ ctx.size = 4 ∨ ctx.size = 8 →
      ∀ base index address : Nat,
      base = (if ctx.mem.base ≠ X86_REG_INVALID then ctxr ctx.mem.base
        else 0) →
      index = (if ctx.mem.index ≠ X86_REG_INVALID then ctxr ctx.mem.index
        else 0) →
      address =
        toGsize ((base : Int) + (index : Int) * ctx.mem.scale +
          ctx.mem.disp) →
      (cmplog_is_readable mem address ctx.size = true →
        cmplog_get_operand_value mem ctxr ctx =
          some (readLE mem address ctx.size)) ∧
      (cmplog_is_readable mem address ctx.size = false →
        cmplog_get_operand_value mem ctxr ctx = none)) := by
  refine ⟨?_, ?_, ?_⟩
  · intro ctx h
    simp [cmplog_get_operand_value, h]
  · intro ctx h
    simp [cmplog_get_operand_value, h]
  · intro ctx hty hsize base index address hbase hindex haddr
    subst hbase hindex
    have haddr2 : address = memAddress ctxr ctx.mem := haddr
    subst haddr2
    have hval : cmplog_get_operand_value mem ctxr ctx =
        cmplog_read_mem mem ctxr ctx.size ctx.mem := by
      simp [cmplog_get_operand_value, hty]
    constructor
    · intro hread
      rw [hval, cmplog_read_mem_readable mem ctxr ctx.size ctx.mem hsize hread]
    · intro hread
      rw [hval, cmplog_read_mem_unreadable mem ctxr ctx.size ctx.mem hread]

/-- Concrete evaluation of `claim_C4`: a register operand yields the
register value, an immediate yields its constant, and an absolute 4-byte
memory operand at displacement 77 on readable memory yields the
little-endian bytes at address 77. -/
theorem claim_C4_witness :
    cmplog_get_operand_value witnessMem (fun _ => 5)
      { cmplog_ctx_zero with type := X86OpType.REG, reg := 7 } = some 5 ∧
    cmplog_get_operand_value witnessMem (fun _ => 5)
      { cmplog_ctx_zero with type := X86OpType.IMM, imm := 9 } =
      some (toGsize 9) ∧
    cmplog_get_operand_value witnessMem (fun _ => 5) memOp4 =
      some (readLE witnessMem (toGsize 77) 4) := by
  have h := claim_C4 witnessMem (fun _ => 5)
  refine ⟨h.1 _ rfl, h.2.1 _ rfl, ?_⟩
  have h3 := (h.2.2 memOp4 rfl (by decide) 0 0
    (toGsize ((0 : Int) + (0 : Int) * memOp4.mem.scale + memOp4.mem.disp))
    (by decide) (by decide) rfl).1 (by decide)
  simpa [memOp4, cmplog_ctx_zero] using h3

/-- Claim C6: a comparison/subtraction instruction whose first operand is a
single byte wide is excluded by the Instrumentation Selector — no callout
of either kind is attached for it, so a session consisting only of callouts
attached for that instruction never creates or modifies any map header. -/
theorem claim_C6 (instr : CsInsn)
    (hfam : cmplog_is_cmp_sub_id instr.id = true)
    (hsize : (instr.operands.getD 0 default).size = 1) :
    cmplog_instrument_cmp_sub instr = none ∧
    ∀ mp : Option CmpMap, calloutsOf mp instr = [] ∧
      ∀ (hash : Nat → Nat) (evs : List (Callout × Mem × (Nat → Nat)))
        (m : CmpMap),
        (∀ e ∈ evs, e.1 ∈ calloutsOf mp instr) →
        runSession hash evs m = m := by
  have hnone : cmplog_instrument_cmp_sub instr = none := by
    simp only [cmplog_instrument_cmp_sub, hfam, hsize]
    split_ifs <;> rfl
  have hne : instr.id ≠ X86InsId.CALL := by
    intro h
    rw [h] at hfam
    simp [cmplog_is_cmp_sub_id] at hfam
  have hcall : cmplog_instrument_call instr = false := by
    simp [cmplog_instrument_call, hne]
  have hempty : ∀ mp : Option CmpMap, calloutsOf mp instr = [] := by
    intro mp
    cases mp <;> simp [calloutsOf, cmplog_instrument, hnone, hcall]
  refine ⟨hnone, fun mp => ⟨hempty mp, ?_⟩⟩
  intro hash evs m hevs
  cases evs with
  | nil => rfl
  | cons e rest =>
    exfalso
    have hmem := hevs e (List.mem_cons_self _ _)
    rw [hempty mp] at hmem
    simp at hmem

/-- Concrete evaluation of `claim_C6`: a single-byte register compare gets
no comparison callout and no callout at all, map region present or not. -/
theorem claim_C6_witness :
    cmplog_instrument_cmp_sub byteCmpInstr = none ∧
    calloutsOf (some CmpMap.init) byteCmpInstr = [] := by
  have h := claim_C6 byteCmpInstr (by decide) (by decide)
  exact ⟨h.1, (h.2 (some CmpMap.init)).1⟩

/-- Claim C10: with the shared map region unset (`__afl_cmp_map == NULL`),
`cmplog_instrument` returns immediately with no callout attached for any
instruction, so any session whose callouts all come from instrumenting
with the null map leaves every map unchanged — the capture engine is a
session-wide no-op. -/
theorem claim_C10 (instr : CsInsn) :
    cmplog_instrument none instr = ⟨false, none⟩ ∧
    calloutsOf none instr = [] ∧
    ∀ (hash : Nat → Nat) (instrs : List CsInsn)
      (evs : List (Callout × Mem × (Nat → Nat))) (m : CmpMap),
      (∀ e ∈ evs, ∃ i ∈ instrs, e.1 ∈ calloutsOf none i) →
      runSession hash evs m = m := by
  refine ⟨rfl, rfl, ?_⟩
  intro hash instrs evs m hevs
  cases evs with
  | nil => rfl
  | cons e rest =>
    exfalso
    obtain ⟨i, _, hmem⟩ := hevs e (List.mem_cons_self _ _)
    simp [calloutsOf, cmplog_instrument] at hmem

/-- Concrete evaluation of `claim_C10`: even a well-formed call instruction
gets nothing attached under a null map, and the empty session is the
identity on the all-zero map. -/
theorem claim_C10_witness :
    cmplog_instrument none callInstr = ⟨false, none⟩ ∧
    calloutsOf none callInstr = [] ∧
    runSession (fun a => a) [] CmpMap.init = CmpMap.init := by
  have h := claim_C10 callInstr
  exact ⟨h.1, h.2.1, h.2.2 (fun a => a) [callInstr] [] CmpMap.init
    (by simp)⟩

/-- Claim C7: `FunctionWeights` assigns weight exactly 0 to every index
with no coverage record; among two functions with identical uncovered-block
counts and nonzero smallest-nonzero hit counts, the rarer one (smaller
smallest-nonzero counter) weighs at least as much as the other; and a fully
explored function (zero uncovered blocks) weighs 0. -/
theorem claim_C7 (Functions : Nat → Option (List Nat)) (NumFunctions : Nat) :
    (∀ f, f < NumFunctions → Functions f = none →
      (FunctionWeights Functions NumFunctions).getD f 0 = 0) ∧
    (∀ f g cf cg, f < NumFunctions → g < NumFunctions →
      Functions f = some cf → Functions g = some cg →
      NumberOfUncoveredBlocks cf = NumberOfUncoveredBlocks cg →
      SmallestNonZeroCounter cf ≠ 0 → SmallestNonZeroCounter cg ≠ 0 →
      SmallestNonZeroCounter cf ≤ SmallestNonZeroCounter cg →
      (FunctionWeights Functions NumFunctions).getD g 0 ≤
        (FunctionWeights Functions NumFunctions).getD f 0) ∧
    (∀ f cf, f < NumFunctions → Functions f = some cf →
      NumberOfUncoveredBlocks cf = 0 →
      (FunctionWeights Functions NumFunctions).getD f 0 = 0) := by
  refine ⟨?_, ?_, ?_⟩
  · intro f hf hnone
    rw [FunctionWeights_getD Functions NumFunctions f hf, hnone]
  · intro f g cf cg hf hg hsf hsg hunc hzf hzg hle
    rw [FunctionWeights_getD Functions NumFunctions f hf, hsf,
      FunctionWeights_getD Functions NumFunctions g hg, hsg]
    show (if NumberOfCoveredBlocks cg = 0 ∨ NumberOfUncoveredBlocks cg = 0
        then (0 : ℚ)
        else (NumberOfUncoveredBlocks cg : ℚ) /
          (SmallestNonZeroCounter cg : ℚ)) ≤
      (if NumberOfCoveredBlocks cf = 0 ∨ NumberOfUncoveredBlocks cf = 0
        then (0 : ℚ)
        else (NumberOfUncoveredBlocks cf : ℚ) /
          (SmallestNonZeroCounter cf : ℚ))
    by_cases hu : NumberOfUncoveredBlocks cg = 0
    · rw [if_pos (Or.inr hu), if_pos (Or.inr (hunc.trans hu))]
    · rw [if_neg ?hcg, if_neg ?hcf]
      case hcg =>
        rintro (hcontr | hcontr)
        · exact SmallestNonZeroCounter_ne_zero_covered cg hzg hcontr
        · exact hu hcontr
      case hcf =>
        rintro (hcontr | hcontr)
        · exact SmallestNonZeroCounter_ne_zero_covered cf hzf hcontr
        · exact hu (hunc ▸ hcontr)
      rw [← hunc]
      have hposf : (0 : ℚ) < (SmallestNonZeroCounter cf : ℚ) := by
        exact_mod_cast Nat.pos_of_ne_zero hzf
      have hlef : (SmallestNonZeroCounter cf : ℚ) ≤
          (SmallestNonZeroCounter cg : ℚ) := by exact_mod_cast hle
      gcongr
  · intro f cf hf hsome hunc
    rw [FunctionWeights_getD Functions NumFunctions f hf, hsome]
    show (if NumberOfCoveredBlocks cf = 0 ∨ NumberOfUncoveredBlocks cf = 0
        then (0 : ℚ)
        else (NumberOfUncoveredBlocks cf : ℚ) /
          (SmallestNonZeroCounter cf : ℚ)) = 0
    rw [if_pos (Or.inr hunc)]

/-- Concrete evaluation of `claim_C7` on `witnessCov`: the unrecorded
function 3 weighs 0, the fully covered function 2 weighs 0, and the common
function 1 weighs no more than the rare function 0. -/
theorem claim_C7_witness :
    (FunctionWeights witnessCov 4).getD 3 0 = 0 ∧
    (FunctionWeights witnessCov 4).getD 2 0 = 0 ∧
    (FunctionWeights witnessCov 4).getD 1 0 ≤
      (FunctionWeights witnessCov 4).getD 0 0 := by
  have h := claim_C7 witnessCov 4
  refine ⟨h.1 3 (by omega) rfl, h.2.2 2 [3] (by omega) rfl (by decide), ?_⟩
  exact h.2.1 0 1 [1, 0] [5, 0] (by omega) (by omega) rfl rfl (by decide)
    (by decide) (by decide) (by decide)

/-- Claim C8: `Get` returns the stored trace vector exactly for the
fingerprints loaded into the trace table (absent otherwise), and a sequence
of `Get` calls has no side effect: the table after any such sequence is
unchanged and the results are the pure lookups. -/
theorem claim_C8 (t : DataFlowTrace)
    (hnodup : (t.Traces.map Prod.fst).Nodup) :
    (∀ s v, t.Get s = some v ↔ (s, v) ∈ t.Traces) ∧
    (∀ s, t.Get s = none ↔ ∀ v, (s, v) ∉ t.Traces) ∧
    (∀ qs, (DataFlowTrace.runGets qs t).2 = t ∧
      (DataFlowTrace.runGets qs t).1 = qs.map t.Get) := by
  have hmem : ∀ s v, t.Get s = some v ↔ (s, v) ∈ t.Traces :=
    fun s v => lookup_iff_mem t.Traces hnodup s v
  refine ⟨hmem, ?_, ?_⟩
  · intro s
    constructor
    · intro h v hv
      rw [(hmem s v).mpr hv] at h
      exact Option.noConfusion h
    · intro h
      cases hget : t.Get s with
      | none => rfl
      | some v => exact absurd ((hmem s v).mp hget) (h v)
  · intro qs
    induction qs with
    | nil => exact ⟨rfl, rfl⟩
    | cons q rest ih =>
      simp only [DataFlowTrace.runGets, DataFlowTrace.GetStep, List.map_cons]
      exact ⟨ih.1, by rw [ih.2]⟩

/-- Concrete evaluation of `claim_C8` on `witnessTrace`: a loaded
fingerprint returns its vector, an unknown fingerprint is absent, and two
lookups leave the table unchanged. -/
theorem claim_C8_witness :
    witnessTrace.Get "aaa" = some [1, 2] ∧
    witnessTrace.Get "unknown" = none ∧
    (DataFlowTrace.runGets ["aaa", "unknown"] witnessTrace).2 =
      witnessTrace := by
  have h := claim_C8 witnessTrace (by decide)
  refine ⟨(h.1 "aaa" [1, 2]).mpr (by simp [witnessTrace]), ?_,
    (h.2.2 ["aaa", "unknown"]).1⟩
  exact (h.2.1 "unknown").mpr (by intro v hv; simp [witnessTrace] at hv)

end AflppFilter

